import Mathlib

/-!
Verification of the Verbafest backend workflow logic.

The definitions below are a shallow embedding of the JavaScript handlers and
Mongoose models of the repository: entity documents become Lean structures
(object ids become Nat, status enums become String fields matching the source
string literals, money and scores become rationals), and each HTTP handler
becomes a function from a database state and its inputs to a new state paired
with a response.  Error responses carry the HTTP status code and message of
the source; a handler that returns an error before performing any write
returns its input state unchanged, exactly as the source does.
-/

/-- One entry of the statusPerSubEvent map on a Participant document
(models/Participant.js).  The status field ranges over the schema enum
not_started, active, eliminated, winner, qualified. -/
structure SubEventStatusEntry where
  status : String
  currentRound : Option Nat
  roundNumber : Nat
deriving Repr, DecidableEq

/-- Default entry produced when a dotted-path update creates the map entry,
and the value written by the initializers in the source. -/
def defaultEntry : SubEventStatusEntry :=
  { status := "not_started", currentRound := none, roundNumber := 0 }

/-- A Participant document (models/Participant.js), restricted to the fields
the verified handlers read or write. -/
structure Participant where
  pid : Nat
  registeredSubEvents : List Nat
  pendingSubEvents : List Nat
  isReRegistration : Bool
  registrationStatus : String
  currentStatus : String
  currentEvent : Option Nat
  statusPerSubEvent : List (Nat × SubEventStatusEntry)
  chestNumber : Option Nat
  adminNotes : String
deriving Repr, DecidableEq

/-- A SubEvent document (models/SubEvent.js), restricted to the fields the
verified handlers use.  registrationPrice and the group size bounds are
optional to model absent properties hit by the JavaScript truthiness
defaults in the handlers. -/
structure SubEvent where
  seid : Nat
  etype : String
  registrationPrice : Option ℚ
  groupMin : Option Nat
  groupMax : Option Nat
  totalRegistrations : Nat
  approvedParticipants : Nat
deriving Repr, DecidableEq

/-- A Round document (models/Round.js). -/
structure Round where
  rid : Nat
  subEvent : Nat
  roundNumber : Nat
  name : String
  status : String
  participants : List Nat
  winners : List Nat
  startTime : Option Nat
  endTime : Option Nat
deriving Repr, DecidableEq

/-- A Group document (models/Group.js). -/
structure GroupDoc where
  gid : Nat
  subEventId : Nat
  roundId : Nat
  groupNumber : Nat
  participants : List Nat
  evaluationStatus : String
  averageScore : ℚ
deriving Repr, DecidableEq

/-- A judge entry embedded in a Panel document (models/Panel.js). -/
structure Judge where
  name : String
  email : String
  accessCode : String
deriving Repr, DecidableEq

/-- A Panel document (models/Panel.js), restricted to the fields used. -/
structure Panel where
  panelId : Nat
  judges : List Judge
deriving Repr, DecidableEq

/-- A per-parameter score entry submitted with an evaluation; weight is
optional, the handler applies a weight of 1 when it is absent. -/
structure ScoreEntry where
  score : ℚ
  maxScore : ℚ
  weight : Option ℚ
deriving Repr, DecidableEq

/-- A per-participant rating embedded in an Evaluation document. -/
structure ParticipantRating where
  participantId : Nat
  selectedForNextRound : Bool
deriving Repr, DecidableEq

/-- An Evaluation document (models/Evaluation.js), restricted to the fields
the verified handlers use. -/
structure Evaluation where
  groupId : Nat
  panelId : Nat
  roundId : Nat
  judgeEmail : String
  scores : List ScoreEntry
  totalScore : ℚ
  maxTotalScore : ℚ
  percentage : ℚ
  recommendForNextRound : Bool
  participantRatings : List ParticipantRating
deriving Repr, DecidableEq

/-- A Counter document (models/Counter.js): a named sequence keyed by the
pair of a model name and a field name. -/
structure CounterDoc where
  model : String
  field : String
  count : Nat
deriving Repr, DecidableEq

/-- The bulkRegistrationDiscount sub-document of the PaymentSettings
singleton (models/PaymentSettings.js). -/
structure BulkDiscount where
  enabled : Bool
  minEvents : Nat
  discountType : String
  discountValue : ℚ
deriving Repr, DecidableEq

/-- The database state shared by the handlers. -/
structure DB where
  participants : List Participant
  subEvents : List SubEvent
  rounds : List Round
  groups : List GroupDoc
  panels : List Panel
  evaluations : List Evaluation
  counters : List CounterDoc
deriving Repr, DecidableEq

/-- The response of a handler: 2xx success or an error with an HTTP status
code and a message. -/
inductive HResult (α : Type) where
  | ok : α → HResult α
  | err : Nat → String → HResult α
deriving Repr, DecidableEq

/-- True exactly when the response is an error. -/
def HResult.isErr {α : Type} : HResult α → Bool
  | .ok _ => false
  | .err _ _ => true

/-- The status code of an error response, 200 for a success. -/
def HResult.code {α : Type} : HResult α → Nat
  | .ok _ => 200
  | .err c _ => c

/-- calculateDiscount (models/PaymentSettings.js lines 90 to 104): zero when
the bulk discount is disabled or the event count is below minEvents;
percentage of the subtotal in percentage mode; the flat value otherwise. -/
def calculateDiscount (s : BulkDiscount) (totalAmount : ℚ) (eventCount : Nat) : ℚ :=
  if !s.enabled then 0
  else if eventCount < s.minEvents then 0
  else if s.discountType = "percentage" then totalAmount * s.discountValue / 100
  else s.discountValue

/-- Claim C7: for every payment-settings document, subtotal t and event count
n, calculateDiscount t n is 0 when the discount is disabled or n is below the
configured minimum event count; t * discountValue / 100 when enabled, at or
above the threshold and in percentage mode; and discountValue regardless of t
when enabled, at or above the threshold and in fixed mode. -/
theorem calculateDiscount_spec (s : BulkDiscount) (t : ℚ) (n : Nat) :
    ((s.enabled = false ∨ n < s.minEvents) → calculateDiscount s t n = 0) ∧
    (s.enabled = true → s.minEvents ≤ n → s.discountType = "percentage" →
      calculateDiscount s t n = t * s.discountValue / 100) ∧
    (s.enabled = true → s.minEvents ≤ n → s.discountType = "fixed" →
      calculateDiscount s t n = s.discountValue) := by
  refine ⟨?_, ?_, ?_⟩
  · rintro (hdis | hlow)
    · simp [calculateDiscount, hdis]
    · by_cases he : s.enabled
      · simp [calculateDiscount, he, hlow]
      · simp [calculateDiscount, he]
  · intro he hge hp
    have hnlt : ¬ n < s.minEvents := Nat.not_lt.mpr hge
    simp [calculateDiscount, he, hnlt, hp]
  · intro he hge hf
    have hnlt : ¬ n < s.minEvents := Nat.not_lt.mpr hge
    have hnp : ¬ s.discountType = "percentage" := by
      rw [hf]; decide
    simp [calculateDiscount, he, hnlt, hnp]

/-- Witness for calculateDiscount_spec: a 10 percent discount at 3 events on
a subtotal of 150 is 15; a fixed discount of 20 is 20 regardless of the
subtotal; a disabled discount is 0. -/
theorem calculateDiscount_spec_witness :
    calculateDiscount ⟨true, 3, "percentage", 10⟩ 150 3 = 150 * 10 / 100 ∧
    calculateDiscount ⟨true, 3, "fixed", 20⟩ 999 3 = 20 ∧
    calculateDiscount ⟨false, 3, "percentage", 10⟩ 150 3 = 0 := by
  refine ⟨?_, ?_, ?_⟩
  · exact (calculateDiscount_spec ⟨true, 3, "percentage", 10⟩ 150 3).2.1 rfl
      (by decide) rfl
  · exact (calculateDiscount_spec ⟨true, 3, "fixed", 20⟩ 999 3).2.2 rfl
      (by decide) rfl
  · exact (calculateDiscount_spec ⟨false, 3, "percentage", 10⟩ 150 3).1
      (Or.inl rfl)

/-- Counter.findOneAndUpdate with an increment and upsert, as invoked by the
chest-number pre-save hook: the first document matching the model and field
pair is incremented in place (or inserted with count 1 when absent) and the
new count is returned together with the new collection. -/
def counterInc : List CounterDoc → String → String → List CounterDoc × Nat
  | [], m, f => ([⟨m, f, 1⟩], 1)
  | c :: cs, m, f =>
    if c.model = m ∧ c.field = f then
      ({ c with count := c.count + 1 } :: cs, c.count + 1)
    else
      let r := counterInc cs m f
      (c :: r.1, r.2)

/-- The stored count of the first counter document matching the key, 0 when
the document does not exist (mirroring the schema default). -/
def counterVal : List CounterDoc → String → String → Nat
  | [], _, _ => 0
  | c :: cs, m, f => if c.model = m ∧ c.field = f then c.count else counterVal cs m f

/-- The chest-number pre-save hook of the Participant schema: on a new
document it increments the named counter with key Participant chestNumber
and assigns the returned count; a save of an existing document leaves both
the participant and the counters untouched. -/
def chestNumberHook (isNew : Bool) (p : Participant) (cs : List CounterDoc) :
    Participant × List CounterDoc :=
  if isNew then
    let r := counterInc cs "Participant" "chestNumber"
    ({ p with chestNumber := some r.2 }, r.1)
  else (p, cs)

/-- Successive creation of participants, each one running the pre-save hook
as a new document against the evolving counter collection. -/
def createParticipants (cs : List CounterDoc) : List Participant → List Participant × List CounterDoc
  | [] => ([], cs)
  | p :: ps =>
    let r := chestNumberHook true p cs
    let rest := createParticipants r.2 ps
    (r.1 :: rest.1, rest.2)

theorem counterInc_snd (cs : List CounterDoc) (m f : String) :
    (counterInc cs m f).2 = counterVal cs m f + 1 := by
  induction cs with
  | nil => simp [counterInc, counterVal]
  | cons c cs ih =>
    by_cases h : c.model = m ∧ c.field = f
    · simp [counterInc, counterVal, h]
    · simp [counterInc, counterVal, h, ih]

theorem counterInc_val (cs : List CounterDoc) (m f : String) :
    counterVal (counterInc cs m f).1 m f = counterVal cs m f + 1 := by
  induction cs with
  | nil => simp [counterInc, counterVal]
  | cons c cs ih =>
    by_cases h : c.model = m ∧ c.field = f
    · simp [counterInc, counterVal, h]
    · simp [counterInc, counterVal, h, ih]

theorem createParticipants_chestNumbers (cs : List CounterDoc) (ps : List Participant) :
    ((createParticipants cs ps).1.filterMap (fun q => q.chestNumber))
      = (List.range ps.length).map
          (fun i => counterVal cs "Participant" "chestNumber" + 1 + i) := by
  induction ps generalizing cs with
  | nil => simp [createParticipants]
  | cons p ps ih =>
    simp only [createParticipants, chestNumberHook, eq_self_iff_true, if_true,
      List.filterMap_cons, List.length_cons, counterInc_snd]
    rw [ih, counterInc_val, List.range_succ_eq_map]
    simp only [List.map_cons, List.map_map]
    refine List.cons_eq_cons.mpr ⟨by omega, ?_⟩
    apply List.map_congr_left
    intro i _
    simp only [Function.comp_apply]
    omega

/-- Claim C10: the chest number is assigned exactly once at creation from the
named counter with key Participant chestNumber, which is incremented per new
participant; a save of an existing participant changes neither the
participant nor the counters; across successively created participants the
assigned chest numbers are strictly increasing, so no two participants share
one. -/
theorem chestNumber_spec (p : Participant) (cs : List CounterDoc) (ps : List Participant) :
    chestNumberHook false p cs = (p, cs) ∧
    (chestNumberHook true p cs).1.chestNumber
      = some (counterVal cs "Participant" "chestNumber" + 1) ∧
    ((createParticipants cs ps).1.filterMap (fun q => q.chestNumber)).Pairwise (· < ·) ∧
    ((createParticipants cs ps).1.filterMap (fun q => q.chestNumber)).Nodup := by
  have hpair :
      ((createParticipants cs ps).1.filterMap (fun q => q.chestNumber)).Pairwise (· < ·) := by
    rw [createParticipants_chestNumbers]
    refine List.Pairwise.map _ (fun a b hab => ?_) (List.pairwise_lt_range ps.length)
    omega
  refine ⟨rfl, ?_, hpair, hpair.imp (fun h => Nat.ne_of_lt h)⟩
  simp [chestNumberHook, counterInc_snd]

/-- Participant.findById on the database state. -/
def findParticipant (db : DB) (pid : Nat) : Option Participant :=
  db.participants.find? (fun x => x.pid = pid)

/-- participant.save: the document with the same id is replaced. -/
def saveParticipant (db : DB) (q : Participant) : DB :=
  { db with participants := db.participants.map (fun x => if x.pid = q.pid then q else x) }

/-- Map.get on the statusPerSubEvent map. -/
def getEntry : List (Nat × SubEventStatusEntry) → Nat → Option SubEventStatusEntry
  | [], _ => none
  | kv :: m, k => if kv.1 = k then some kv.2 else getEntry m k

/-- Map.set on the statusPerSubEvent map: replaces the entry when the key is
present, appends it otherwise. -/
def setEntry : List (Nat × SubEventStatusEntry) → Nat → SubEventStatusEntry → List (Nat × SubEventStatusEntry)
  | [], k, e => [(k, e)]
  | kv :: m, k, e => if kv.1 = k then (k, e) :: m else kv :: setEntry m k e

/-- A dotted-path update that sets only the status field of one map entry,
creating the entry with the schema defaults when it is absent. -/
def setStatusField (m : List (Nat × SubEventStatusEntry)) (k : Nat) (s : String) :
    List (Nat × SubEventStatusEntry) :=
  match getEntry m k with
  | some e => setEntry m k { e with status := s }
  | none => setEntry m k { defaultEntry with status := s }

/-- subEvent.updateRegistrationCount for every listed sub-event: recount the
approved participants registered to it (models/SubEvent.js lines 124 to
132), as run after an approval. -/
def updateRegistrationCounts (db : DB) (ids : List Nat) : DB :=
  { db with subEvents := db.subEvents.map (fun e =>
      if e.seid ∈ ids then
        { e with approvedParticipants :=
            (db.participants.filter (fun x =>
              e.seid ∈ x.registeredSubEvents ∧ x.registrationStatus = "approved")).length }
      else e) }

/-- PUT /api/admin/participants/:id/approve (admin participants router):
404 when the id does not resolve; 400 before any write when the participant
is already approved; otherwise a pending re-registration merges the pending
sub-events into the registered set and initializes their map entries, the
status becomes approved and the availability available, the document is
saved, and each registered sub-event recounts its approved participants. -/
def approveParticipant (db : DB) (pid : Nat) : DB × HResult Participant :=
  match findParticipant db pid with
  | none => (db, .err 404 "Participant not found")
  | some participant =>
    if participant.registrationStatus = "approved" then
      (db, .err 400 "Participant is already approved")
    else
      let merged :=
        if participant.isReRegistration ∧ participant.pendingSubEvents ≠ [] then
          let newEvents := participant.pendingSubEvents.filter
            (fun id => id ∉ participant.registeredSubEvents)
          { participant with
              registeredSubEvents := participant.registeredSubEvents ++ newEvents,
              statusPerSubEvent := newEvents.foldl
                (fun m id => setEntry m id defaultEntry) participant.statusPerSubEvent,
              isReRegistration := false,
              pendingSubEvents := [] }
        else participant
      let saved := { merged with
          registrationStatus := "approved", currentStatus := "available" }
      let db2 := saveParticipant db saved
      (updateRegistrationCounts db2 saved.registeredSubEvents, .ok saved)

/-- PUT /api/admin/participants/:id/reject: 404 when the id does not
resolve; 400 before any write when the participant is already rejected;
otherwise the status becomes rejected, a supplied reason is stored in the
admin notes, and the document is saved. -/
def rejectParticipant (db : DB) (pid : Nat) (reason : Option String) : DB × HResult Participant :=
  match findParticipant db pid with
  | none => (db, .err 404 "Participant not found")
  | some participant =>
    if participant.registrationStatus = "rejected" then
      (db, .err 400 "Participant is already rejected")
    else
      let saved := { participant with
          registrationStatus := "rejected",
          adminNotes := match reason with
            | some r => r
            | none => participant.adminNotes }
      (saveParticipant db saved, .ok saved)

/-- Claim C8: approving an already-approved participant fails with a 400
error and leaves the whole database state unchanged, and rejecting an
already-rejected participant fails with a 400 error and leaves the whole
database state unchanged. -/
theorem approve_reject_terminal_spec (db : DB) (pid : Nat) (p : Participant)
    (reason : Option String) (hf : findParticipant db pid = some p) :
    (p.registrationStatus = "approved" →
      approveParticipant db pid = (db, .err 400 "Participant is already approved")) ∧
    (p.registrationStatus = "rejected" →
      rejectParticipant db pid reason = (db, .err 400 "Participant is already rejected")) := by
  constructor
  · intro ha
    simp [approveParticipant, hf, ha]
  · intro hr
    simp [rejectParticipant, hf, hr]

/-- Witness for approve_reject_terminal_spec at a concrete database with an
approved and a rejected participant. -/
theorem approve_reject_terminal_spec_witness :
    let pa : Participant :=
      { pid := 1, registeredSubEvents := [], pendingSubEvents := [],
        isReRegistration := false, registrationStatus := "approved",
        currentStatus := "available", currentEvent := none,
        statusPerSubEvent := [], chestNumber := some 1, adminNotes := "" }
    let pr : Participant :=
      { pid := 2, registeredSubEvents := [], pendingSubEvents := [],
        isReRegistration := false, registrationStatus := "rejected",
        currentStatus := "registered", currentEvent := none,
        statusPerSubEvent := [], chestNumber := some 2, adminNotes := "" }
    let db : DB :=
      { participants := [pa, pr], subEvents := [], rounds := [], groups := [],
        panels := [], evaluations := [], counters := [] }
    approveParticipant db 1 = (db, .err 400 "Participant is already approved") ∧
    rejectParticipant db 2 none = (db, .err 400 "Participant is already rejected") := by
  intro pa pr db
  constructor
  · exact (approve_reject_terminal_spec db 1 pa none (by decide)).1 rfl
  · exact (approve_reject_terminal_spec db 2 pr none (by decide)).2 rfl

theorem find?_save (l : List Participant) (pid : Nat) (p q : Participant)
    (hf : l.find? (fun x => x.pid = pid) = some p) (hq : q.pid = pid) :
    (l.map (fun x => if x.pid = q.pid then q else x)).find? (fun x => x.pid = pid)
      = some q := by
  induction l with
  | nil => simp [List.find?] at hf
  | cons a l ih =>
    by_cases ha : a.pid = pid
    · have hhead : (if a.pid = q.pid then q else a) = q := by rw [hq, if_pos ha]
      simp only [List.map_cons, hhead]
      exact List.find?_cons_of_pos _ (by simp [hq])
    · have hhead : (if a.pid = q.pid then q else a) = a := by rw [hq]; exact if_neg ha
      have hf2 : l.find? (fun x => x.pid = pid) = some p := by
        rwa [List.find?_cons_of_neg _ (by simp [ha])] at hf
      simp only [List.map_cons, hhead]
      rw [List.find?_cons_of_neg _ (by simp [ha])]
      exact ih hf2

theorem getEntry_setEntry_self (m : List (Nat × SubEventStatusEntry)) (k : Nat)
    (e : SubEventStatusEntry) : getEntry (setEntry m k e) k = some e := by
  induction m with
  | nil => simp [setEntry, getEntry]
  | cons kv m ih =>
    by_cases h : kv.1 = k
    · simp [setEntry, getEntry, h]
    · simp [setEntry, getEntry, h, ih]

theorem getEntry_setEntry_ne (m : List (Nat × SubEventStatusEntry)) (k k2 : Nat)
    (e : SubEventStatusEntry) (h : k2 ≠ k) :
    getEntry (setEntry m k e) k2 = getEntry m k2 := by
  have h2 : ¬ k = k2 := fun he => h he.symm
  induction m with
  | nil => simp [setEntry, getEntry, h2]
  | cons kv m ih =>
    by_cases hk : kv.1 = k
    · simp [setEntry, getEntry, hk, h2]
    · by_cases hk2 : kv.1 = k2
      · simp [setEntry, getEntry, hk, hk2, h, h2]
      · simp [setEntry, getEntry, hk, hk2, ih]

theorem getEntry_foldl_not_mem (ids : List Nat) (m : List (Nat × SubEventStatusEntry))
    (e : SubEventStatusEntry) (k : Nat) (hk : k ∉ ids) :
    getEntry (ids.foldl (fun acc i => setEntry acc i e) m) k = getEntry m k := by
  induction ids generalizing m with
  | nil => rfl
  | cons i ids ih =>
    have hne : k ≠ i := fun he => hk (he ▸ List.mem_cons_self i ids)
    have hrest : k ∉ ids := fun hm => hk (List.mem_cons_of_mem i hm)
    simp only [List.foldl_cons]
    rw [ih _ hrest, getEntry_setEntry_ne _ _ _ _ hne]

theorem getEntry_foldl_setEntry (ids : List Nat) (m : List (Nat × SubEventStatusEntry))
    (e : SubEventStatusEntry) (k : Nat) (hk : k ∈ ids) :
    getEntry (ids.foldl (fun acc i => setEntry acc i e) m) k = some e := by
  induction ids generalizing m with
  | nil => cases hk
  | cons i ids ih =>
    simp only [List.foldl_cons]
    by_cases hmem : k ∈ ids
    · exact ih _ hmem
    · have hki : k = i := by
        rcases List.mem_cons.mp hk with h | h
        · exact h
        · exact absurd h hmem
      rw [getEntry_foldl_not_mem _ _ _ _ hmem, hki, getEntry_setEntry_self]

/-- Claim C3: approving a pending participant that carries a pending
re-registration merges the pending sub-events into the registered set,
initializes a default (not_started) status entry for each of them, and sets
the registration status to approved and the availability to available; the
saved document is what the store then holds for that id. -/
theorem approve_reregistration_spec (db : DB) (pid : Nat) (p : Participant)
    (hf : findParticipant db pid = some p)
    (hpend : p.registrationStatus = "pending")
    (hre : p.isReRegistration = true)
    (hne : p.pendingSubEvents ≠ [])
    (hdisj : ∀ e ∈ p.pendingSubEvents, e ∉ p.registeredSubEvents) :
    ∃ q, (approveParticipant db pid).2 = .ok q ∧
      findParticipant (approveParticipant db pid).1 pid = some q ∧
      q.registeredSubEvents = p.registeredSubEvents ++ p.pendingSubEvents ∧
      (∀ e ∈ p.pendingSubEvents, getEntry q.statusPerSubEvent e = some defaultEntry) ∧
      q.registrationStatus = "approved" ∧
      q.currentStatus = "available" := by
  have hppid : p.pid = pid := by
    have h := List.find?_some hf
    simpa using h
  have hnotappr : ¬ p.registrationStatus = "approved" := by rw [hpend]; decide
  have hfilter : p.pendingSubEvents.filter (fun id => id ∉ p.registeredSubEvents)
      = p.pendingSubEvents :=
    List.filter_eq_self.mpr (fun a ha => by simpa using hdisj a ha)
  refine ⟨{ p with
      registeredSubEvents := p.registeredSubEvents ++ p.pendingSubEvents,
      statusPerSubEvent := p.pendingSubEvents.foldl
        (fun m id => setEntry m id defaultEntry) p.statusPerSubEvent,
      isReRegistration := false,
      pendingSubEvents := [],
      registrationStatus := "approved",
      currentStatus := "available" }, ?_, ?_, rfl, ?_, rfl, rfl⟩
  · simp only [approveParticipant, hf, if_neg hnotappr, if_pos (And.intro hre hne),
      hfilter]
  · simp only [approveParticipant, hf, if_neg hnotappr, if_pos (And.intro hre hne),
      hfilter]
    exact find?_save _ _ _ _ hf hppid
  · intro e he
    exact getEntry_foldl_setEntry _ _ _ _ he

/-- Witness for approve_reregistration_spec at a concrete pending
re-registration merging sub-events 2 and 3 into a set containing 1. -/
theorem approve_reregistration_spec_witness :
    let p : Participant :=
      { pid := 7, registeredSubEvents := [1], pendingSubEvents := [2, 3],
        isReRegistration := true, registrationStatus := "pending",
        currentStatus := "registered", currentEvent := none,
        statusPerSubEvent := [(1, defaultEntry)], chestNumber := some 1,
        adminNotes := "" }
    let db : DB :=
      { participants := [p], subEvents := [], rounds := [], groups := [],
        panels := [], evaluations := [], counters := [] }
    ∃ q, (approveParticipant db 7).2 = .ok q ∧
      findParticipant (approveParticipant db 7).1 7 = some q ∧
      q.registeredSubEvents = [1] ++ [2, 3] ∧
      (∀ e ∈ [2, 3], getEntry q.statusPerSubEvent e = some defaultEntry) ∧
      q.registrationStatus = "approved" ∧
      q.currentStatus = "available" := by
  intro p db
  exact approve_reregistration_spec db 7 p (by decide) rfl rfl (by decide) (by decide)

/-- Generic form of the save lemma: replacing the found document by a
document with the same key makes the replacement the found document. -/
theorem find?_map_replace {α : Type} (key : α → Nat) (l : List α) (k : Nat) (p q : α)
    (hf : l.find? (fun x => key x = k) = some p) (hq : key q = k) :
    (l.map (fun x => if key x = key q then q else x)).find? (fun x => key x = k)
      = some q := by
  induction l with
  | nil => simp [List.find?] at hf
  | cons a l ih =>
    by_cases ha : key a = k
    · have hhead : (if key a = key q then q else a) = q := by rw [hq, if_pos ha]
      simp only [List.map_cons, hhead]
      exact List.find?_cons_of_pos _ (by simp [hq])
    · have hhead : (if key a = key q then q else a) = a := by rw [hq]; exact if_neg ha
      have hf2 : l.find? (fun x => key x = k) = some p := by
        rwa [List.find?_cons_of_neg _ (by simp [ha])] at hf
      simp only [List.map_cons, hhead]
      rw [List.find?_cons_of_neg _ (by simp [ha])]
      exact ih hf2

/-- Round.findById on the database state. -/
def findRound (db : DB) (rid : Nat) : Option Round :=
  db.rounds.find? (fun r => r.rid = rid)

/-- round.save: the document with the same id is replaced. -/
def saveRound (db : DB) (r : Round) : DB :=
  { db with rounds := db.rounds.map (fun x => if x.rid = r.rid then r else x) }

/-- POST /api/admin/rounds/:id/start (routes of the rounds admin router,
lines 284 to 336 of the second document of routes/admin/queries.js): 404
when the round id does not resolve; otherwise the status is set to active
and the start time stamped, unconditionally, and every listed participant
is marked busy with its per-sub-event entry set to active for this round.
The handler performs no check of the current round status. -/
def startRound (db : DB) (rid : Nat) (now : Nat) : DB × HResult Round :=
  match findRound db rid with
  | none => (db, .err 404 "Round not found")
  | some round =>
    let started := { round with status := "active", startTime := some now }
    let db2 := saveRound db started
    let db3 := { db2 with participants := db2.participants.map (fun x =>
        if x.pid ∈ round.participants then
          { x with currentStatus := "busy",
                   currentEvent := some round.subEvent,
                   statusPerSubEvent := setEntry x.statusPerSubEvent round.subEvent
                     ⟨"active", some round.rid, round.roundNumber⟩ }
        else x) }
    (db3, .ok started)

/-- Counterexample to claim C2: starting a round whose status is already
completed does not return a 400-equivalent error; it succeeds, mutates the
round, and moves its status backwards from completed to active. -/
theorem startRound_completed_counterexample :
    let r : Round :=
      { rid := 1, subEvent := 1, roundNumber := 2, name := "Finals",
        status := "completed", participants := [], winners := [],
        startTime := none, endTime := some 3 }
    let db : DB :=
      { participants := [], subEvents := [], rounds := [r], groups := [],
        panels := [], evaluations := [], counters := [] }
    (startRound db 1 5).2
        = .ok { r with status := "active", startTime := some 5 } ∧
    findRound (startRound db 1 5).1 1
        = some { r with status := "active", startTime := some 5 } ∧
    (startRound db 1 5).2.isErr = false := by
  refine ⟨rfl, rfl, rfl⟩

/-- Claim C2 as amended: the start-round handler validates nothing about the
current status: for every existing round, whatever its status (pending,
active or completed), the call succeeds, sets the status to active, stamps
the start time, and updates every listed participant to busy with an active
per-sub-event entry for this round; a completed round therefore moves
backwards to active.  Only a missing round id produces an error, a 404. -/
theorem startRound_spec (db : DB) (rid now : Nat) (r : Round)
    (hf : findRound db rid = some r) :
    (startRound db rid now).2 = .ok { r with status := "active", startTime := some now } ∧
    findRound (startRound db rid now).1 rid
      = some { r with status := "active", startTime := some now } ∧
    (∀ x ∈ db.participants,
      (x.pid ∈ r.participants →
        { x with currentStatus := "busy",
                 currentEvent := some r.subEvent,
                 statusPerSubEvent := setEntry x.statusPerSubEvent r.subEvent
                   ⟨"active", some r.rid, r.roundNumber⟩ }
          ∈ (startRound db rid now).1.participants) ∧
      (x.pid ∉ r.participants → x ∈ (startRound db rid now).1.participants)) := by
  have hrrid : r.rid = rid := by
    have h := List.find?_some hf
    simpa using h
  refine ⟨?_, ?_, ?_⟩
  · simp only [startRound, hf]
  · have hf2 : db.rounds.find? (fun x => x.rid = rid) = some r := hf
    simp only [startRound, hf]
    simp only [findRound, saveRound]
    exact find?_map_replace Round.rid db.rounds rid r
      { r with status := "active", startTime := some now } hf2 hrrid
  · intro x hx
    constructor
    · intro hmem
      simp only [startRound, hf, saveRound]
      exact List.mem_map.mpr ⟨x, hx, by rw [if_pos hmem]⟩
    · intro hmem
      simp only [startRound, hf, saveRound]
      exact List.mem_map.mpr ⟨x, hx, by rw [if_neg hmem]⟩

/-- Witness for startRound_spec at a concrete pending round with one listed
participant. -/
theorem startRound_spec_witness :
    let r : Round :=
      { rid := 4, subEvent := 9, roundNumber := 1, name := "Prelims",
        status := "pending", participants := [11], winners := [],
        startTime := none, endTime := none }
    let db : DB :=
      { participants := [], subEvents := [], rounds := [r], groups := [],
        panels := [], evaluations := [], counters := [] }
    (startRound db 4 10).2 = .ok { r with status := "active", startTime := some 10 } := by
  intro r db
  exact (startRound_spec db 4 10 r (by decide)).1

/-- SubEvent.findById on the database state. -/
def findSubEvent (db : DB) (seid : Nat) : Option SubEvent :=
  db.subEvents.find? (fun e => e.seid = seid)

/-- POST /api/admin/rounds (rounds admin router, lines 199 to 236 of the
second document of routes/admin/queries.js): 404 when the sub-event does
not resolve; round number 1 auto-seeds the participant list with every
approved registrant of the sub-event; Round.create hits the unique compound
index on the (subEvent, roundNumber) pair (models/Round.js line 48), whose
duplicate-key error the handler catches as a 400 conflict; otherwise the
new pending round is inserted. -/
def createRound (db : DB) (newRid subEventId roundNumber : Nat) (nm : String) :
    DB × HResult Round :=
  match findSubEvent db subEventId with
  | none => (db, .err 404 "Sub-event not found")
  | some _ =>
    let initialParticipants :=
      if roundNumber = 1 then
        (db.participants.filter (fun p =>
          subEventId ∈ p.registeredSubEvents ∧ p.registrationStatus = "approved")).map
            (fun p => p.pid)
      else []
    if db.rounds.any (fun r => r.subEvent = subEventId ∧ r.roundNumber = roundNumber) then
      (db, .err 400 "Round number already exists for this event")
    else
      let round : Round :=
        { rid := newRid, subEvent := subEventId, roundNumber := roundNumber,
          name := nm, status := "pending", participants := initialParticipants,
          winners := [], startTime := none, endTime := none }
      ({ db with rounds := db.rounds ++ [round] }, .ok round)

/-- No two rounds of the same sub-event carry the same round number. -/
def roundPairsUnique (rounds : List Round) : Prop :=
  rounds.Pairwise (fun a b => a.subEvent = b.subEvent → a.roundNumber ≠ b.roundNumber)

/-- Claim C9: creating a round with a (subEvent, roundNumber) pair that
already exists fails with a conflict error and changes nothing, and a
create-round call always preserves the uniqueness of the pair across the
round collection. -/
theorem createRound_unique_spec (db : DB) (newRid seid n : Nat) (nm : String)
    (e : SubEvent) (hse : findSubEvent db seid = some e)
    (huniq : roundPairsUnique db.rounds) :
    ((∃ r ∈ db.rounds, r.subEvent = seid ∧ r.roundNumber = n) →
      createRound db newRid seid n nm
        = (db, .err 400 "Round number already exists for this event")) ∧
    roundPairsUnique (createRound db newRid seid n nm).1.rounds := by
  constructor
  · intro hdup
    have hany : db.rounds.any (fun r => r.subEvent = seid ∧ r.roundNumber = n) = true := by
      rcases hdup with ⟨r, hr, h1, h2⟩
      exact List.any_eq_true.mpr ⟨r, hr, by simp [h1, h2]⟩
    simp only [createRound, hse, hany, if_true]
  · by_cases hany : db.rounds.any (fun r => r.subEvent = seid ∧ r.roundNumber = n) = true
    · simp only [createRound, hse, hany, if_true]
      exact huniq
    · simp only [createRound, hse, hany, if_false, Bool.false_eq_true]
      rw [roundPairsUnique, List.pairwise_append]
      refine ⟨huniq, List.pairwise_singleton _ _, ?_⟩
      intro a ha b hb
      rw [List.mem_singleton] at hb
      subst hb
      intro hsub hnum
      apply hany
      refine List.any_eq_true.mpr ⟨a, ha, ?_⟩
      simp only [decide_eq_true_eq]
      exact ⟨hsub, hnum⟩

/-- Witness for createRound_unique_spec: a duplicate (subEvent, roundNumber)
pair is refused with the conflict message and the state is unchanged. -/
theorem createRound_unique_spec_witness :
    let r : Round :=
      { rid := 1, subEvent := 5, roundNumber := 1, name := "Prelims",
        status := "pending", participants := [], winners := [],
        startTime := none, endTime := none }
    let e : SubEvent :=
      { seid := 5, etype := "individual", registrationPrice := some 50,
        groupMin := some 2, groupMax := some 5, totalRegistrations := 0,
        approvedParticipants := 0 }
    let db : DB :=
      { participants := [], subEvents := [e], rounds := [r], groups := [],
        panels := [], evaluations := [], counters := [] }
    createRound db 2 5 1 "Again"
      = (db, .err 400 "Round number already exists for this event") := by
  intro r e db
  exact (createRound_unique_spec db 2 5 1 "Again" e (by decide)
    (List.pairwise_singleton _ _)).1 ⟨r, by decide, rfl, rfl⟩

/-- JavaScript or-default on an optional numeric property: a missing or zero
value falls back to the default (the source writes price or 50). -/
def jsOrQ (v : Option ℚ) (d : ℚ) : ℚ :=
  match v with
  | none => d
  | some x => if x = 0 then d else x

/-- The minimum accepted payment of POST /api/registration/submit
(routes/registration.js lines 167 to 169): the subtotal of the selected
sub-event prices, each defaulting to 50, minus the bulk discount, clamped
at zero. -/
def expectedRegistrationAmount (settings : BulkDiscount) (subEvents : List SubEvent) : ℚ :=
  let calculatedSubtotal :=
    subEvents.foldl (fun total e => total + jsOrQ e.registrationPrice 50) 0
  max 0 (calculatedSubtotal - calculateDiscount settings calculatedSubtotal subEvents.length)

/-- POST /api/registration/submit, payment validation and creation segment
(routes/registration.js lines 163 to 213): rejects when the paid amount is
below the expected amount; otherwise creates one pending participant (the
pre-save hook assigns its chest number), initializes a not-started status
entry per selected sub-event, and increments each selected sub-event's
registration counter. -/
def submitRegistration (settings : BulkDiscount) (db : DB) (newPid : Nat)
    (subEvents : List SubEvent) (paidAmount : ℚ) : DB × HResult Participant :=
  if paidAmount < expectedRegistrationAmount settings subEvents then
    (db, .err 400 "Invalid payment amount")
  else
    let subEventIds := subEvents.map (fun e => e.seid)
    let participant : Participant :=
      { pid := newPid,
        registeredSubEvents := subEventIds,
        pendingSubEvents := [],
        isReRegistration := false,
        registrationStatus := "pending",
        currentStatus := "registered",
        currentEvent := none,
        statusPerSubEvent := subEventIds.foldl (fun m id => setEntry m id defaultEntry) [],
        chestNumber := none,
        adminNotes := "" }
    let r := chestNumberHook true participant db.counters
    let db2 := { db with participants := db.participants ++ [r.1], counters := r.2 }
    let db3 := { db2 with subEvents := db2.subEvents.map (fun e =>
        if e.seid ∈ subEventIds then { e with totalRegistrations := e.totalRegistrations + 1 }
        else e) }
    (db3, .ok r.1)

/-- Claim C6: a submission paying less than the expected amount (subtotal
minus bulk discount) is rejected with a client error and changes nothing;
paying at least the expected amount creates exactly one new participant
with registration status pending and a not-started status entry per
selected sub-event, and increments each selected sub-event's registration
counter. -/
theorem submitRegistration_spec (settings : BulkDiscount) (db : DB) (newPid : Nat)
    (subEvents : List SubEvent) (paid : ℚ) :
    (paid < expectedRegistrationAmount settings subEvents →
      submitRegistration settings db newPid subEvents paid
        = (db, .err 400 "Invalid payment amount")) ∧
    (expectedRegistrationAmount settings subEvents ≤ paid →
      ∃ q, (submitRegistration settings db newPid subEvents paid).2 = .ok q ∧
        q.registrationStatus = "pending" ∧
        q.registeredSubEvents = subEvents.map (fun e => e.seid) ∧
        (∀ id ∈ subEvents.map (fun e => e.seid),
          getEntry q.statusPerSubEvent id = some defaultEntry) ∧
        (submitRegistration settings db newPid subEvents paid).1.participants
          = db.participants ++ [q] ∧
        (∀ e ∈ db.subEvents, e.seid ∈ subEvents.map (fun e2 => e2.seid) →
          { e with totalRegistrations := e.totalRegistrations + 1 }
            ∈ (submitRegistration settings db newPid subEvents paid).1.subEvents)) := by
  constructor
  · intro hlt
    simp only [submitRegistration, if_pos hlt]
  · intro hge
    have hnlt : ¬ paid < expectedRegistrationAmount settings subEvents := not_lt.mpr hge
    refine ⟨(chestNumberHook true
      { pid := newPid,
        registeredSubEvents := subEvents.map (fun e => e.seid),
        pendingSubEvents := [],
        isReRegistration := false,
        registrationStatus := "pending",
        currentStatus := "registered",
        currentEvent := none,
        statusPerSubEvent := (subEvents.map (fun e => e.seid)).foldl
          (fun m id => setEntry m id defaultEntry) [],
        chestNumber := none,
        adminNotes := "" } db.counters).1, ?_, ?_, ?_, ?_, ?_, ?_⟩
    · simp only [submitRegistration, if_neg hnlt]
    · simp [chestNumberHook]
    · simp [chestNumberHook]
    · intro id hid
      simp only [chestNumberHook, if_pos rfl]
      exact getEntry_foldl_setEntry _ _ _ _ hid
    · simp only [submitRegistration, if_neg hnlt]
    · intro e he hmem
      simp only [submitRegistration, if_neg hnlt]
      exact List.mem_map.mpr ⟨e, he, by rw [if_pos hmem]⟩

/-- Witness for submitRegistration_spec, the end-to-end scenario of the
specification: three sub-events priced 50 each with a 10 percent discount
at 3 events give an expected amount of 135; paying 100 is rejected and
paying 135 succeeds with three not-started status entries. -/
theorem submitRegistration_spec_witness :
    let s : BulkDiscount := ⟨true, 3, "percentage", 10⟩
    let mk : Nat → SubEvent := fun i =>
      { seid := i, etype := "individual", registrationPrice := some 50,
        groupMin := some 2, groupMax := some 5, totalRegistrations := 0,
        approvedParticipants := 0 }
    let db : DB :=
      { participants := [], subEvents := [mk 5, mk 6, mk 7], rounds := [],
        groups := [], panels := [], evaluations := [], counters := [] }
    submitRegistration s db 1 [mk 5, mk 6, mk 7] 100
      = (db, .err 400 "Invalid payment amount") ∧
    ∃ q, (submitRegistration s db 1 [mk 5, mk 6, mk 7] 135).2 = .ok q ∧
      q.registrationStatus = "pending" ∧
      (∀ id ∈ ([mk 5, mk 6, mk 7].map (fun e => e.seid)),
        getEntry q.statusPerSubEvent id = some defaultEntry) := by
  intro s mk db
  constructor
  · exact (submitRegistration_spec s db 1 [mk 5, mk 6, mk 7] 100).1
      (by norm_num [expectedRegistrationAmount, calculateDiscount, jsOrQ, mk])
  · obtain ⟨q, h1, h2, _, h4, _, _⟩ :=
      (submitRegistration_spec s db 1 [mk 5, mk 6, mk 7] 135).2
        (by norm_num [expectedRegistrationAmount, calculateDiscount, jsOrQ, mk])
    exact ⟨q, h1, h2, h4⟩

/-- One evaluation's contribution to the selected set: every participant
rating flagged selectedForNextRound adds its participant id to the
accumulator unless already present (JavaScript Set.add semantics). -/
def addSelected (acc : List Nat) (prs : List ParticipantRating) : List Nat :=
  prs.foldl (fun a pr =>
    if pr.selectedForNextRound = true ∧ pr.participantId ∉ a then a ++ [pr.participantId]
    else a) acc

/-- The union, over all evaluations, of the participants flagged
selectedForNextRound by at least one judge (promote-selected handler,
lines 418 to 426 of the second document of routes/admin/queries.js). -/
def selectedFromEvaluations (evals : List Evaluation) : List Nat :=
  evals.foldl (fun acc ev => addSelected acc ev.participantRatings) []

theorem mem_addSelected (prs : List ParticipantRating) (acc : List Nat) (x : Nat) :
    x ∈ addSelected acc prs ↔
      x ∈ acc ∨ ∃ pr ∈ prs, pr.participantId = x ∧ pr.selectedForNextRound = true := by
  induction prs generalizing acc with
  | nil => simp [addSelected]
  | cons pr prs ih =>
    simp only [addSelected, List.foldl_cons] at ih ⊢
    by_cases hsel : pr.selectedForNextRound = true ∧ pr.participantId ∉ acc
    · rw [if_pos hsel, ih]
      constructor
      · rintro (h | h)
        · rcases List.mem_append.mp h with h2 | h2
          · exact Or.inl h2
          · exact Or.inr ⟨pr, List.mem_cons_self _ _,
              (List.mem_singleton.mp h2).symm, hsel.1⟩
        · rcases h with ⟨pr2, hpr2, h1, h2⟩
          exact Or.inr ⟨pr2, List.mem_cons_of_mem _ hpr2, h1, h2⟩
      · rintro (h | ⟨pr2, hpr2, h1, h2⟩)
        · exact Or.inl (List.mem_append.mpr (Or.inl h))
        · rcases List.mem_cons.mp hpr2 with he | he
          · subst he
            exact Or.inl (List.mem_append.mpr
              (Or.inr (List.mem_singleton.mpr h1.symm)))
          · exact Or.inr ⟨pr2, he, h1, h2⟩
    · rw [if_neg hsel, ih]
      constructor
      · rintro (h | ⟨pr2, hpr2, h1, h2⟩)
        · exact Or.inl h
        · exact Or.inr ⟨pr2, List.mem_cons_of_mem _ hpr2, h1, h2⟩
      · rintro (h | ⟨pr2, hpr2, h1, h2⟩)
        · exact Or.inl h
        · rcases List.mem_cons.mp hpr2 with he | he
          · subst he
            by_cases hin : pr2.participantId ∈ acc
            · exact Or.inl (h1 ▸ hin)
            · exact absurd ⟨h2, hin⟩ hsel
          · exact Or.inr ⟨pr2, he, h1, h2⟩

theorem nodup_addSelected (prs : List ParticipantRating) (acc : List Nat)
    (h : acc.Nodup) : (addSelected acc prs).Nodup := by
  induction prs generalizing acc with
  | nil => exact h
  | cons pr prs ih =>
    simp only [addSelected, List.foldl_cons]
    by_cases hsel : pr.selectedForNextRound = true ∧ pr.participantId ∉ acc
    · rw [if_pos hsel]
      exact ih _ (List.Nodup.append h (List.nodup_singleton _)
        (fun a ha hb => hsel.2 ((List.mem_singleton.mp hb) ▸ ha)))
    · rw [if_neg hsel]
      exact ih _ h

theorem mem_selectedFromEvaluations (evals : List Evaluation) (x : Nat) :
    x ∈ selectedFromEvaluations evals ↔
      ∃ ev ∈ evals, ∃ pr ∈ ev.participantRatings,
        pr.participantId = x ∧ pr.selectedForNextRound = true := by
  have haux : ∀ (l : List Evaluation) (acc : List Nat),
      x ∈ l.foldl (fun a ev => addSelected a ev.participantRatings) acc ↔
        x ∈ acc ∨ ∃ ev ∈ l, ∃ pr ∈ ev.participantRatings,
          pr.participantId = x ∧ pr.selectedForNextRound = true := by
    intro l
    induction l with
    | nil => simp
    | cons ev l ih =>
      intro acc
      simp only [List.foldl_cons]
      rw [ih, mem_addSelected]
      constructor
      · rintro ((hx | hx) | ⟨ev2, hev2, hrest⟩)
        · exact Or.inl hx
        · rcases hx with ⟨pr, hpr, h1, h2⟩
          exact Or.inr ⟨ev, List.mem_cons_self _ _, pr, hpr, h1, h2⟩
        · exact Or.inr ⟨ev2, List.mem_cons_of_mem _ hev2, hrest⟩
      · rintro (hx | ⟨ev2, hev2, pr, hpr, h1, h2⟩)
        · exact Or.inl (Or.inl hx)
        · rcases List.mem_cons.mp hev2 with he | he
          · subst he
            exact Or.inl (Or.inr ⟨pr, hpr, h1, h2⟩)
          · exact Or.inr ⟨ev2, he, pr, hpr, h1, h2⟩
  rw [selectedFromEvaluations, haux]
  simp

theorem nodup_selectedFromEvaluations (evals : List Evaluation) :
    (selectedFromEvaluations evals).Nodup := by
  have haux : ∀ (l : List Evaluation) (acc : List Nat), acc.Nodup →
      (l.foldl (fun a ev => addSelected a ev.participantRatings) acc).Nodup := by
    intro l
    induction l with
    | nil => exact fun acc h => h
    | cons ev l ih =>
      intro acc hacc
      simp only [List.foldl_cons]
      exact ih _ (nodup_addSelected _ _ hacc)
  exact haux _ _ List.nodup_nil

/-- The status string a participant holds for one sub-event. -/
def statusOf (q : Participant) (k : Nat) : Option String :=
  (getEntry q.statusPerSubEvent k).map (fun e => e.status)

theorem statusOf_setStatusField (m : List (Nat × SubEventStatusEntry)) (k : Nat)
    (s : String) :
    (getEntry (setStatusField m k s) k).map (fun e => e.status) = some s := by
  unfold setStatusField
  cases h : getEntry m k with
  | none => rw [getEntry_setEntry_self]; rfl
  | some e => rw [getEntry_setEntry_self]; rfl

theorem find?_rid_of_nodup (l : List Round) (r : Round)
    (hnodup : (l.map Round.rid).Nodup) (hm : r ∈ l) :
    l.find? (fun x => x.rid = r.rid) = some r := by
  induction l with
  | nil => cases hm
  | cons a l ih =>
    rw [List.map_cons, List.nodup_cons] at hnodup
    rcases List.mem_cons.mp hm with he | he
    · subst he
      exact List.find?_cons_of_pos _ (by simp)
    · have hne : a.rid ≠ r.rid := by
        intro hh
        exact hnodup.1 (hh ▸ List.mem_map_of_mem Round.rid he)
      rw [List.find?_cons_of_neg _ (by simp [hne])]
      exact ih hnodup.2 he

/-- The push-if-absent loop the promote handler runs over the selected ids
to extend the next round's participant list without duplicates. -/
def pushUnique (ps : List Nat) (ids : List Nat) : List Nat :=
  ids.foldl (fun acc id => if id ∈ acc then acc else acc ++ [id]) ps

theorem mem_pushUnique (ids ps : List Nat) (x : Nat) :
    x ∈ pushUnique ps ids ↔ x ∈ ps ∨ x ∈ ids := by
  induction ids generalizing ps with
  | nil => simp [pushUnique]
  | cons i ids ih =>
    simp only [pushUnique, List.foldl_cons] at ih ⊢
    by_cases hi : i ∈ ps
    · rw [if_pos hi, ih]
      constructor
      · rintro (h | h)
        · exact Or.inl h
        · exact Or.inr (List.mem_cons_of_mem _ h)
      · rintro (h | h)
        · exact Or.inl h
        · rcases List.mem_cons.mp h with he | he
          · exact Or.inl (he ▸ hi)
          · exact Or.inr he
    · rw [if_neg hi, ih]
      constructor
      · rintro (h | h)
        · rcases List.mem_append.mp h with h2 | h2
          · exact Or.inl h2
          · exact Or.inr (List.mem_cons.mpr (Or.inl (List.mem_singleton.mp h2)))
        · exact Or.inr (List.mem_cons_of_mem _ h)
      · rintro (h | h)
        · exact Or.inl (List.mem_append.mpr (Or.inl h))
        · rcases List.mem_cons.mp h with he | he
          · exact Or.inl (List.mem_append.mpr (Or.inr (List.mem_singleton.mpr he)))
          · exact Or.inr he

theorem nodup_pushUnique (ids ps : List Nat) (h : ps.Nodup) :
    (pushUnique ps ids).Nodup := by
  induction ids generalizing ps with
  | nil => exact h
  | cons i ids ih =>
    simp only [pushUnique, List.foldl_cons] at ih ⊢
    by_cases hi : i ∈ ps
    · rw [if_pos hi]
      exact ih _ h
    · rw [if_neg hi]
      exact ih _ (List.Nodup.append h (List.nodup_singleton _)
        (fun a ha hb => hi ((List.mem_singleton.mp hb) ▸ ha)))

/-- The selected set the promote handler computes for a round: the union of
the participants flagged selectedForNextRound over the evaluations stored
for that round. -/
def roundSelected (db : DB) (R : Round) : List Nat :=
  selectedFromEvaluations (db.evaluations.filter (fun ev => ev.roundId = R.rid))

/-- POST /api/admin/rounds/:id/promote-selected (lines 410 to 507 of the
second document of routes/admin/queries.js): 404 when the round does not
resolve; computes the union of judge-selected participants over the
round's evaluations; 400 before any write when the next sequential round
of the same sub-event does not exist; otherwise pushes the selected ids
into the next round's participant list without duplicates, sets the
current round's winners to the selected ids, marks every selected
participant qualified (globally and for the sub-event), marks every
round participant not selected eliminated for the sub-event, and saves
both rounds. -/
def promoteSelected (db : DB) (rid : Nat) : DB × HResult Round :=
  match findRound db rid with
  | none => (db, .err 404 "Round not found")
  | some currentRound =>
    let selected := roundSelected db currentRound
    match db.rounds.find? (fun r => r.subEvent = currentRound.subEvent ∧
        r.roundNumber = currentRound.roundNumber + 1) with
    | none => (db, .err 400 "Next round not found. Please create it first.")
    | some nextRound =>
      let nextRound2 := { nextRound with
        participants := pushUnique nextRound.participants selected }
      let currentRound2 := { currentRound with winners := selected }
      let db2 := { db with participants := db.participants.map (fun x : Participant =>
          if x.pid ∈ selected then
            { x with currentStatus := "qualified",
                     statusPerSubEvent := setStatusField x.statusPerSubEvent
                       currentRound.subEvent "qualified" }
          else x) }
      let db3 := { db2 with participants := db2.participants.map (fun x : Participant =>
          if x.pid ∈ currentRound.participants ∧ x.pid ∉ selected then
            { x with statusPerSubEvent := setStatusField x.statusPerSubEvent
                       currentRound.subEvent "eliminated" }
          else x) }
      (saveRound (saveRound db3 nextRound2) currentRound2, .ok nextRound2)

/-- Claim C1: promote-selected computes the selected set as the union over
the round's evaluations of the participants flagged selectedForNextRound by
at least one judge; it fails with a 400 client error, changing nothing,
when no round numbered one higher exists for the same sub-event; otherwise
it appends the selected set, deduplicated, to the next round's participant
list, sets the current round's winners to exactly that set, sets every
selected participant to availability qualified and per-sub-event status
qualified, and sets every participant of the round not selected to
per-sub-event status eliminated, leaving no round participant in any other
status. -/
theorem promote_selected_spec (db : DB) (rid : Nat) (R NR : Round)
    (hR : findRound db rid = some R)
    (hids : (db.rounds.map Round.rid).Nodup) :
    (∀ x, x ∈ roundSelected db R ↔
       ∃ ev ∈ db.evaluations, ev.roundId = R.rid ∧
         ∃ pr ∈ ev.participantRatings,
           pr.participantId = x ∧ pr.selectedForNextRound = true) ∧
    (db.rounds.find? (fun r => r.subEvent = R.subEvent ∧
        r.roundNumber = R.roundNumber + 1) = none →
      promoteSelected db rid
        = (db, .err 400 "Next round not found. Please create it first.")) ∧
    (db.rounds.find? (fun r => r.subEvent = R.subEvent ∧
        r.roundNumber = R.roundNumber + 1) = some NR →
      (promoteSelected db rid).2
          = .ok { NR with participants := pushUnique NR.participants (roundSelected db R) } ∧
      (∀ x, x ∈ pushUnique NR.participants (roundSelected db R) ↔
          x ∈ NR.participants ∨ x ∈ roundSelected db R) ∧
      (NR.participants.Nodup →
          (pushUnique NR.participants (roundSelected db R)).Nodup) ∧
      { NR with participants := pushUnique NR.participants (roundSelected db R) }
          ∈ (promoteSelected db rid).1.rounds ∧
      { R with winners := roundSelected db R } ∈ (promoteSelected db rid).1.rounds ∧
      (∀ p ∈ db.participants, ∃ q ∈ (promoteSelected db rid).1.participants,
        q.pid = p.pid ∧
        (p.pid ∈ roundSelected db R →
          q.currentStatus = "qualified" ∧ statusOf q R.subEvent = some "qualified") ∧
        (p.pid ∈ R.participants → p.pid ∉ roundSelected db R →
          statusOf q R.subEvent = some "eliminated") ∧
        (p.pid ∈ R.participants →
          statusOf q R.subEvent = some "qualified" ∨
          statusOf q R.subEvent = some "eliminated"))) := by
  refine ⟨?_, ?_, ?_⟩
  · intro x
    rw [roundSelected, mem_selectedFromEvaluations]
    constructor
    · rintro ⟨ev, hev, rest⟩
      rw [List.mem_filter] at hev
      exact ⟨ev, hev.1, by simpa using hev.2, rest⟩
    · rintro ⟨ev, hev, hrid0, rest⟩
      exact ⟨ev, List.mem_filter.mpr ⟨hev, by simpa using hrid0⟩, rest⟩
  · intro hnone
    simp only [promoteSelected, hR, hnone]
  · intro hNR
    have hmemNR : NR ∈ db.rounds := List.mem_of_find?_eq_some hNR
    have hmemR : R ∈ db.rounds := List.mem_of_find?_eq_some hR
    have hprops : NR.subEvent = R.subEvent ∧ NR.roundNumber = R.roundNumber + 1 := by
      have h := List.find?_some hNR
      simpa using h
    have hNRneR : NR ≠ R := by
      intro he
      have h2 := hprops.2
      rw [he] at h2
      omega
    have hridne : NR.rid ≠ R.rid := by
      intro he
      exact hNRneR (List.inj_on_of_nodup_map hids hmemNR hmemR he)
    refine ⟨?_, fun x => mem_pushUnique _ _ x, fun h => nodup_pushUnique _ _ h,
      ?_, ?_, ?_⟩
    · simp only [promoteSelected, hR, hNR]
    · simp only [promoteSelected, hR, hNR, saveRound]
      refine List.mem_map.mpr ⟨{ NR with
          participants := pushUnique NR.participants (roundSelected db R) },
        List.mem_map.mpr ⟨NR, hmemNR, by rw [if_pos rfl]⟩, ?_⟩
      rw [if_neg hridne]
    · simp only [promoteSelected, hR, hNR, saveRound]
      refine List.mem_map.mpr ⟨R,
        List.mem_map.mpr ⟨R, hmemR, by rw [if_neg (fun hh => hridne hh.symm)]⟩, ?_⟩
      rw [if_pos rfl]
    · intro p hp
      simp only [promoteSelected, hR, hNR, saveRound]
      by_cases h1 : p.pid ∈ roundSelected db R
      · refine ⟨{ p with
            currentStatus := "qualified",
            statusPerSubEvent := setStatusField p.statusPerSubEvent R.subEvent "qualified" },
          ?_, rfl, ?_, ?_, ?_⟩
        · refine List.mem_map.mpr ⟨{ p with
              currentStatus := "qualified",
              statusPerSubEvent := setStatusField p.statusPerSubEvent R.subEvent "qualified" },
            List.mem_map.mpr ⟨p, hp, by rw [if_pos h1]⟩, ?_⟩
          rw [if_neg (fun hc => hc.2 h1)]
        · intro _
          exact ⟨rfl, statusOf_setStatusField _ _ _⟩
        · intro _ hnot
          exact absurd h1 hnot
        · intro _
          exact Or.inl (statusOf_setStatusField _ _ _)
      · by_cases h2 : p.pid ∈ R.participants
        · refine ⟨{ p with
              statusPerSubEvent := setStatusField p.statusPerSubEvent R.subEvent "eliminated" },
            ?_, rfl, ?_, ?_, ?_⟩
          · refine List.mem_map.mpr ⟨p,
              List.mem_map.mpr ⟨p, hp, by rw [if_neg h1]⟩, ?_⟩
            rw [if_pos ⟨h2, h1⟩]
          · intro hin
            exact absurd hin h1
          · intro _ _
            exact statusOf_setStatusField _ _ _
          · intro _
            exact Or.inr (statusOf_setStatusField _ _ _)
        · refine ⟨p, ?_, rfl, ?_, ?_, ?_⟩
          · refine List.mem_map.mpr ⟨p,
              List.mem_map.mpr ⟨p, hp, by rw [if_neg h1]⟩, ?_⟩
            rw [if_neg (fun hc => h2 hc.1)]
          · intro hin
            exact absurd hin h1
          · intro hin _
            exact absurd hin h2
          · intro hin
            exact absurd hin h2

/-- Witness for promote_selected_spec at a concrete round with three
participants, two judges, and a selected union of two participants. -/
theorem promote_selected_spec_witness :
    let p10 : Participant :=
      { pid := 10, registeredSubEvents := [1], pendingSubEvents := [],
        isReRegistration := false, registrationStatus := "approved",
        currentStatus := "busy", currentEvent := some 1,
        statusPerSubEvent := [(1, ⟨"active", some 1, 1⟩)],
        chestNumber := some 1, adminNotes := "" }
    let R : Round :=
      { rid := 1, subEvent := 1, roundNumber := 1, name := "Prelims",
        status := "completed", participants := [10, 11, 12], winners := [],
        startTime := none, endTime := none }
    let NR : Round :=
      { rid := 2, subEvent := 1, roundNumber := 2, name := "Finals",
        status := "pending", participants := [], winners := [],
        startTime := none, endTime := none }
    let ev1 : Evaluation :=
      { groupId := 1, panelId := 1, roundId := 1, judgeEmail := "judge1",
        scores := [], totalScore := 8, maxTotalScore := 10, percentage := 80,
        recommendForNextRound := true,
        participantRatings := [⟨10, true⟩, ⟨11, false⟩] }
    let db : DB :=
      { participants := [p10, { p10 with pid := 11 }, { p10 with pid := 12 }],
        subEvents := [], rounds := [R, NR], groups := [], panels := [],
        evaluations := [ev1, { ev1 with
          judgeEmail := "judge2",
          participantRatings := [⟨11, true⟩, ⟨12, false⟩] }],
        counters := [] }
    (promoteSelected db 1).2
        = .ok { NR with participants := pushUnique NR.participants (roundSelected db R) } ∧
    { R with winners := roundSelected db R } ∈ (promoteSelected db 1).1.rounds := by
  intro p10 R NR ev1 db
  obtain ⟨hsel, hmiss, hsucc⟩ := promote_selected_spec db 1 R NR (by decide) (by decide)
  obtain ⟨hresp, hmem, hnodup, hnr, hrw, hparts⟩ := hsucc (by decide)
  exact ⟨hresp, hrw⟩

/-- Append one participant to the group at the given index. -/
def pushAt : List (List Nat) → Nat → Nat → List (List Nat)
  | [], _, _ => []
  | g :: gs, 0, x => (g ++ [x]) :: gs
  | g :: gs, k + 1, x => g :: pushAt gs k x

/-- Round-robin distribution of a leftover chunk into the already-formed
groups: element j of the chunk goes to group j mod the group count
(routes/admin/groups.js lines 164 to 172). -/
def distributeChunk : List (List Nat) → List Nat → Nat → List (List Nat)
  | groups, [], _ => groups
  | groups, c :: cs, j => distributeChunk (pushAt groups (j % groups.length) c) cs (j + 1)

theorem pushAt_length (gs : List (List Nat)) (k x : Nat) :
    (pushAt gs k x).length = gs.length := by
  induction gs generalizing k with
  | nil => rfl
  | cons a gs ih =>
    cases k with
    | zero => rfl
    | succ k => simp [pushAt, ih]

theorem mem_pushAt_exists (gs : List (List Nat)) (k x : Nat) (g : List Nat)
    (hg : g ∈ pushAt gs k x) : ∃ g0 ∈ gs, g0.length ≤ g.length := by
  induction gs generalizing k with
  | nil => cases hg
  | cons a gs ih =>
    cases k with
    | zero =>
      rcases List.mem_cons.mp hg with he | he
      · exact ⟨a, List.mem_cons_self _ _, by rw [he, List.length_append]; omega⟩
      · exact ⟨g, List.mem_cons_of_mem _ he, le_refl _⟩
    | succ k =>
      rcases List.mem_cons.mp hg with he | he
      · exact ⟨a, List.mem_cons_self _ _, by rw [he]⟩
      · obtain ⟨g0, hg0, hle⟩ := ih k he
        exact ⟨g0, List.mem_cons_of_mem _ hg0, hle⟩

theorem exists_mem_pushAt_of_exists (gs : List (List Nat)) (k c x : Nat)
    (h : ∃ g ∈ gs, x ∈ g) : ∃ g ∈ pushAt gs k c, x ∈ g := by
  induction gs generalizing k with
  | nil => simp [pushAt] at h
  | cons a gs ih =>
    obtain ⟨g, hg, hx⟩ := h
    cases k with
    | zero =>
      rcases List.mem_cons.mp hg with he | he
      · exact ⟨a ++ [c], List.mem_cons_self _ _,
          List.mem_append.mpr (Or.inl (he ▸ hx))⟩
      · exact ⟨g, List.mem_cons_of_mem _ he, hx⟩
    | succ k =>
      rcases List.mem_cons.mp hg with he | he
      · exact ⟨a, List.mem_cons_self _ _, he ▸ hx⟩
      · obtain ⟨g2, hg2, hx2⟩ := ih k ⟨g, he, hx⟩
        exact ⟨g2, List.mem_cons_of_mem _ hg2, hx2⟩

theorem mem_pushAt_self (gs : List (List Nat)) (k c : Nat) (hk : k < gs.length) :
    ∃ g ∈ pushAt gs k c, c ∈ g := by
  induction gs generalizing k with
  | nil => cases hk
  | cons a gs ih =>
    cases k with
    | zero =>
      exact ⟨a ++ [c], List.mem_cons_self _ _,
        List.mem_append.mpr (Or.inr (List.mem_singleton.mpr rfl))⟩
    | succ k =>
      obtain ⟨g, hg, hc⟩ := ih k (Nat.lt_of_succ_lt_succ hk)
      exact ⟨g, List.mem_cons_of_mem _ hg, hc⟩

theorem mem_distributeChunk_exists (chunk : List Nat) (groups : List (List Nat))
    (j : Nat) (g : List Nat) (hg : g ∈ distributeChunk groups chunk j) :
    ∃ g0 ∈ groups, g0.length ≤ g.length := by
  induction chunk generalizing groups j with
  | nil => exact ⟨g, hg, le_refl _⟩
  | cons c cs ih =>
    obtain ⟨g1, hg1, hle1⟩ := ih (pushAt groups (j % groups.length) c) (j + 1) hg
    obtain ⟨g0, hg0, hle0⟩ := mem_pushAt_exists groups (j % groups.length) c g1 hg1
    exact ⟨g0, hg0, le_trans hle0 hle1⟩

theorem distributeChunk_coverage (chunk : List Nat) (groups : List (List Nat))
    (j : Nat) (hne : groups ≠ []) (x : Nat)
    (h : (∃ g ∈ groups, x ∈ g) ∨ x ∈ chunk) :
    ∃ g ∈ distributeChunk groups chunk j, x ∈ g := by
  induction chunk generalizing groups j with
  | nil =>
    rcases h with h | h
    · exact h
    · cases h
  | cons c cs ih =>
    have hlen : 0 < groups.length := List.length_pos.mpr hne
    have hlen2 : (pushAt groups (j % groups.length) c) ≠ [] := by
      intro hh
      rw [← List.length_eq_zero, pushAt_length] at hh
      omega
    rcases h with h | h
    · exact ih _ (j + 1) hlen2
        (Or.inl (exists_mem_pushAt_of_exists _ _ _ _ h))
    · rcases List.mem_cons.mp h with he | he
      · subst he
        exact ih _ (j + 1) hlen2
          (Or.inl (mem_pushAt_self groups _ x (Nat.mod_lt _ hlen)))
      · exact ih _ (j + 1) hlen2 (Or.inr he)

/-- The fuel-indexed chunking loop of the auto-form handler
(routes/admin/groups.js lines 160 to 197): slices the shuffled pool into
chunks of the target size; a final chunk smaller than the minimum size is
distributed round-robin into the groups already formed in this call when
any exist (ending the loop), and otherwise becomes a group of its own;
every other chunk becomes a group.  The fuel starts at the pool length,
which suffices whenever the target size is positive. -/
def formGroupsAux (minSize targetSize : Nat) :
    Nat → List (List Nat) → List Nat → Option (List (List Nat))
  | _, groups, [] => some groups
  | 0, _, _ :: _ => none
  | fuel + 1, groups, c :: rest0 =>
    if ((c :: rest0).take targetSize).length < minSize ∧ groups ≠ [] then
      some (distributeChunk groups ((c :: rest0).take targetSize) 0)
    else
      formGroupsAux minSize targetSize fuel (groups ++ [(c :: rest0).take targetSize])
        ((c :: rest0).drop targetSize)

/-- POST /api/admin/groups/auto-form, group formation on the resolved pool:
with a zero target size the first iteration takes an empty chunk and, with
no groups formed yet, the handler answers the 400 error (none); with a
positive target size the chunking loop runs to completion. -/
def autoFormGroups (minSize targetSize : Nat) (pool : List Nat) :
    Option (List (List Nat)) :=
  if 0 < targetSize then formGroupsAux minSize targetSize pool.length [] pool
  else if pool.isEmpty then some [] else none

/-- JavaScript or-default on an optional Nat property: a missing or zero
value falls back to the default. -/
def jsOrNat (v : Option Nat) (d : Nat) : Nat :=
  match v with
  | none => d
  | some x => if x = 0 then d else x

/-- The sizes the auto-form handler derives (routes/admin/groups.js lines
144 to 147): the minimum defaults to 2, the maximum to 5, and the target
size is the caller-supplied group size or the midpoint of the bounds. -/
def autoFormSizes (e : SubEvent) (groupSize : Option Nat) : Nat × Nat :=
  let minSize := jsOrNat e.groupMin 2
  let maxSize := jsOrNat e.groupMax 5
  (minSize, jsOrNat groupSize ((minSize + maxSize) / 2))

theorem formGroupsAux_min (minSize targetSize : Nat) (hmt : minSize ≤ targetSize) :
    ∀ (fuel : Nat) (acc : List (List Nat)) (pool : List Nat) (gs : List (List Nat)),
      (∀ g ∈ acc, minSize ≤ g.length) →
      formGroupsAux minSize targetSize fuel acc pool = some gs →
      ∀ g ∈ gs, minSize ≤ g.length ∨ (gs = [g] ∧ acc = [] ∧ pool.length < minSize) := by
  intro fuel
  induction fuel with
  | zero =>
    intro acc pool gs hacc hres g hg
    cases pool with
    | nil =>
      simp only [formGroupsAux] at hres
      cases hres
      exact Or.inl (hacc g hg)
    | cons c r => simp [formGroupsAux] at hres
  | succ fuel ih =>
    intro acc pool gs hacc hres g hg
    cases pool with
    | nil =>
      simp only [formGroupsAux] at hres
      cases hres
      exact Or.inl (hacc g hg)
    | cons c r =>
      simp only [formGroupsAux] at hres
      by_cases hcond : ((c :: r).take targetSize).length < minSize ∧ acc ≠ []
      · rw [if_pos hcond] at hres
        cases hres
        obtain ⟨g0, hg0, hle⟩ := mem_distributeChunk_exists _ _ _ g hg
        exact Or.inl (le_trans (hacc g0 hg0) hle)
      · rw [if_neg hcond] at hres
        by_cases hchunk : minSize ≤ ((c :: r).take targetSize).length
        · have hacc2 : ∀ g2 ∈ acc ++ [(c :: r).take targetSize], minSize ≤ g2.length := by
            intro g2 hg2
            rcases List.mem_append.mp hg2 with h | h
            · exact hacc g2 h
            · rw [List.mem_singleton.mp h]
              exact hchunk
          rcases ih _ _ _ hacc2 hres g hg with h | ⟨h1, h2, h3⟩
          · exact Or.inl h
          · exact absurd h2 (by simp)
        · push_neg at hchunk
          have haccnil : acc = [] := by
            by_contra hne
            exact hcond ⟨hchunk, hne⟩
          subst haccnil
          have hplen : (c :: r).length < targetSize := by
            by_cases hle : targetSize ≤ (c :: r).length
            · rw [List.length_take, Nat.min_eq_left hle] at hchunk
              omega
            · omega
          have hrest : (c :: r).drop targetSize = [] :=
            List.drop_eq_nil_of_le (le_of_lt hplen)
          rw [hrest] at hres
          simp only [formGroupsAux, List.nil_append] at hres
          cases hres
          have hg2 : g ∈ [(c :: r).take targetSize] := hg
          refine Or.inr ⟨by rw [List.mem_singleton.mp hg2], rfl, ?_⟩
          have htake : (c :: r).take targetSize = c :: r :=
            List.take_of_length_le (le_of_lt hplen)
          rw [htake] at hchunk
          exact hchunk

theorem formGroupsAux_coverage (minSize targetSize : Nat) (hmt : minSize ≤ targetSize) :
    ∀ (fuel : Nat) (acc : List (List Nat)) (pool : List Nat) (gs : List (List Nat)),
      formGroupsAux minSize targetSize fuel acc pool = some gs →
      ∀ x, (∃ g ∈ acc, x ∈ g) ∨ x ∈ pool → ∃ g ∈ gs, x ∈ g := by
  intro fuel
  induction fuel with
  | zero =>
    intro acc pool gs hres x hx
    cases pool with
    | nil =>
      simp only [formGroupsAux] at hres
      cases hres
      rcases hx with h | h
      · exact h
      · cases h
    | cons c r => simp [formGroupsAux] at hres
  | succ fuel ih =>
    intro acc pool gs hres x hx
    cases pool with
    | nil =>
      simp only [formGroupsAux] at hres
      cases hres
      rcases hx with h | h
      · exact h
      · cases h
    | cons c r =>
      simp only [formGroupsAux] at hres
      by_cases hcond : ((c :: r).take targetSize).length < minSize ∧ acc ≠ []
      · rw [if_pos hcond] at hres
        cases hres
        have hplen : (c :: r).length < targetSize := by
          by_cases hle : targetSize ≤ (c :: r).length
          · rw [List.length_take, Nat.min_eq_left hle] at hcond
            omega
          · omega
        apply distributeChunk_coverage _ _ _ hcond.2
        rcases hx with h | h
        · exact Or.inl h
        · right
          rw [List.take_of_length_le (le_of_lt hplen)]
          exact h
      · rw [if_neg hcond] at hres
        apply ih _ _ _ hres
        rcases hx with h | h
        · obtain ⟨g, hg, hxg⟩ := h
          exact Or.inl ⟨g, List.mem_append.mpr (Or.inl hg), hxg⟩
        · have h3 : x ∈ (c :: r).take targetSize ++ (c :: r).drop targetSize := by
            rw [List.take_append_drop]
            exact h
          rcases List.mem_append.mp h3 with h2 | h2
          · exact Or.inl ⟨(c :: r).take targetSize,
              List.mem_append.mpr (Or.inr (List.mem_singleton.mpr rfl)), h2⟩
          · exact Or.inr h2

/-- Counterexample to claim C5: with a configured minimum group size of 4
and a caller-supplied group size of 1 (the handler accepts any positive
value and does not validate it against the minimum), a pool of 10
participants produces a single group of 2 participants: a group below the
minimum although the pool is not smaller than the minimum, and 8 of the 10
participants are not grouped at all. -/
theorem autoFormGroups_undersized_counterexample :
    autoFormSizes
      { seid := 1, etype := "group", registrationPrice := some 50,
        groupMin := some 4, groupMax := some 8, totalRegistrations := 0,
        approvedParticipants := 0 }
      (some 1) = (4, 1) ∧
    autoFormGroups 4 1 [1, 2, 3, 4, 5, 6, 7, 8, 9, 10] = some [[1, 2]] ∧
    (∀ g ∈ [[1, 2]], g.length < 4) ∧
    4 ≤ ([1, 2, 3, 4, 5, 6, 7, 8, 9, 10] : List Nat).length := by
  refine ⟨rfl, rfl, by decide, by decide⟩

/-- Claim C5 as amended: whenever the effective target size is at least the
configured minimum (which holds in particular for the default midpoint
target size), no group produced by a call is smaller than the minimum
except the single group formed from a pool smaller than the minimum, and
every pool participant ends up in one of the produced groups (a final
undersized chunk is absorbed into the groups formed earlier in the call
rather than left standalone).  A caller-supplied group size below the
minimum voids the guarantee. -/
theorem autoFormGroups_min_spec (minSize targetSize : Nat) (pool : List Nat)
    (gs : List (List Nat)) (hmt : minSize ≤ targetSize) (ht : 0 < targetSize)
    (hres : autoFormGroups minSize targetSize pool = some gs) :
    (∀ g ∈ gs, minSize ≤ g.length ∨ (gs = [g] ∧ pool.length < minSize)) ∧
    (∀ x ∈ pool, ∃ g ∈ gs, x ∈ g) := by
  rw [autoFormGroups, if_pos ht] at hres
  constructor
  · intro g hg
    rcases formGroupsAux_min minSize targetSize hmt pool.length [] pool gs
        (by simp) hres g hg with h | ⟨h1, _, h3⟩
    · exact Or.inl h
    · exact Or.inr ⟨h1, h3⟩
  · intro x hx
    exact formGroupsAux_coverage minSize targetSize hmt pool.length [] pool gs
      hres x (Or.inr hx)

/-- Witness for autoFormGroups_min_spec: 7 participants at target size 3
and minimum 2 give two groups, the leftover seventh participant being
absorbed into the first group. -/
theorem autoFormGroups_min_spec_witness :
    (∀ g ∈ [[1, 2, 3, 7], [4, 5, 6]], 2 ≤ g.length ∨
        ([[1, 2, 3, 7], [4, 5, 6]] = [g] ∧
          ([1, 2, 3, 4, 5, 6, 7] : List Nat).length < 2)) ∧
    (∀ x ∈ ([1, 2, 3, 4, 5, 6, 7] : List Nat),
        ∃ g ∈ [[1, 2, 3, 7], [4, 5, 6]], x ∈ g) :=
  autoFormGroups_min_spec 2 3 [1, 2, 3, 4, 5, 6, 7] [[1, 2, 3, 7], [4, 5, 6]]
    (by decide) (by decide) rfl

/-- Panel lookup by an embedded judge access code (the handlers match the
trimmed upper-cased code against panel.judges). -/
def findPanelByCode (db : DB) (cleaned : String) : Option Panel :=
  db.panels.find? (fun p => p.judges.any (fun j => j.accessCode = cleaned))

/-- Group.findById on the database state. -/
def findGroup (db : DB) (gid : Nat) : Option GroupDoc :=
  db.groups.find? (fun g => g.gid = gid)

/-- The score totals of a submission (judge evaluate handler, lines 436 to
450 of the second document of routes/registration.js): the supplied
participant-based totals are used as is, except that a missing or zero
supplied maximum falls back to summing the per-parameter scores and
maxima, each weighted by the parameter weight defaulting to 1. -/
def computeScores (scores : List ScoreEntry) (pTotal pMax : ℚ) : ℚ × ℚ :=
  if pMax = 0 then
    scores.foldl (fun acc s =>
      (acc.1 + s.score * jsOrQ s.weight 1, acc.2 + s.maxScore * jsOrQ s.weight 1))
      (0, 0)
  else (pTotal, pMax)

/-- The identifying key of an Evaluation document. -/
def evalKey (ev : Evaluation) : Nat × Nat × String :=
  (ev.groupId, ev.panelId, ev.judgeEmail)

/-- At most one evaluation per (group, panel, judge) key. -/
def evalKeyUnique (evals : List Evaluation) : Prop :=
  evals.Pairwise (fun a b => evalKey a ≠ evalKey b)

/-- POST /api/judge/evaluate (lines 390 to 536 of the second document of
routes/registration.js): resolves the panel and judge from the access
code, taken here as already trimmed and upper-cased (401 on failure) and the group (404 on failure); computes the score
totals; updates the existing evaluation of the (group, panel, judge) key
in place or creates a new one; the pre-save hook recomputes the
percentage as totalScore over maxTotalScore times 100 (0 when the
maximum is not positive); then recounts the evaluations of the group:
at or above the panel judge count the group becomes completed and its
average score becomes the mean of all the percentages, otherwise the
group becomes in_progress and its average score is not touched. -/
def submitEvaluation (db : DB) (code : String) (gid : Nat)
    (scores : List ScoreEntry) (recommend : Bool)
    (ratings : List ParticipantRating) (pTotal pMax : ℚ) :
    DB × HResult Evaluation :=
  match findPanelByCode db code with
  | none => (db, .err 401 "Invalid access code")
  | some panel =>
    match panel.judges.find? (fun j => j.accessCode = code) with
    | none => (db, .err 500 "Judge not found")
    | some judge =>
      match findGroup db gid with
      | none => (db, .err 404 "Group not found")
      | some group =>
        let fin := computeScores scores pTotal pMax
        let base : Evaluation :=
          match db.evaluations.find? (fun ev => ev.groupId = gid ∧
              ev.panelId = panel.panelId ∧ ev.judgeEmail = judge.email) with
          | some ev0 =>
            { ev0 with
                scores := scores, totalScore := fin.1,
                maxTotalScore := fin.2, recommendForNextRound := recommend,
                participantRatings := ratings }
          | none =>
            { groupId := gid, panelId := panel.panelId, roundId := group.roundId,
              judgeEmail := judge.email, scores := scores, totalScore := fin.1,
              maxTotalScore := fin.2, percentage := 0,
              recommendForNextRound := recommend, participantRatings := ratings }
        let saved : Evaluation :=
          { base with
              percentage := if 0 < fin.2 then fin.1 / fin.2 * 100 else 0 }
        let db2 : DB :=
          match db.evaluations.find? (fun ev => ev.groupId = gid ∧
              ev.panelId = panel.panelId ∧ ev.judgeEmail = judge.email) with
          | some _ => { db with evaluations := db.evaluations.map (fun ev =>
              if ev.groupId = gid ∧ ev.panelId = panel.panelId ∧
                  ev.judgeEmail = judge.email then saved else ev) }
          | none => { db with evaluations := db.evaluations ++ [saved] }
        let allEvaluations := db2.evaluations.filter (fun ev => ev.groupId = gid)
        let group2 : GroupDoc :=
          if panel.judges.length ≤ allEvaluations.length then
            { group with
                evaluationStatus := "completed",
                averageScore :=
                  (allEvaluations.foldl (fun sum ev => sum + ev.percentage) 0)
                    / (allEvaluations.length : ℚ) }
          else { group with evaluationStatus := "in_progress" }
        let db3 : DB := { db2 with groups := db2.groups.map (fun g =>
            if g.gid = gid then group2 else g) }
        (db3, .ok saved)

/-- The evaluations stored for a group (the handler's recount query). -/
def evalsFor (db : DB) (gid : Nat) : List Evaluation :=
  db.evaluations.filter (fun ev => ev.groupId = gid)

/-- Counterexample to claim C4: a panel of two judges and a group with no
evaluations; the first submission scores 80 of 100, so the only stored
percentage is 80, yet the group's averageScore stays at its previous
value 0 instead of being recomputed to the mean 80 of all judges'
percentage scores; only the evaluationStatus moves to in_progress. -/
theorem evaluate_average_counterexample :
    let panel : Panel :=
      { panelId := 1,
        judges := [⟨"Judge One", "j1", "A1"⟩, ⟨"Judge Two", "j2", "B1"⟩] }
    let group : GroupDoc :=
      { gid := 1, subEventId := 1, roundId := 1, groupNumber := 1,
        participants := [10, 11], evaluationStatus := "pending",
        averageScore := 0 }
    let db : DB :=
      { participants := [], subEvents := [], rounds := [], groups := [group],
        panels := [panel], evaluations := [], counters := [] }
    ((submitEvaluation db "A1" 1 [] false [] 80 100).1.groups.map
        (fun g => (g.evaluationStatus, g.averageScore))) = [("in_progress", 0)] ∧
    ((submitEvaluation db "A1" 1 [] false [] 80 100).1.evaluations.map
        (fun ev => ev.percentage)) = [80] := by
  intro panel group db
  constructor
  · norm_num [submitEvaluation, findPanelByCode, findGroup, computeScores,
      panel, group, db, List.find?]
  · norm_num [submitEvaluation, findPanelByCode, findGroup, computeScores,
      panel, group, db, List.find?]

/-- Claim C4 as amended: a submission upserts one evaluation per (group,
panel, judge) key, updating the existing record in place (the record count
is unchanged) or appending a new one, and the key uniqueness is preserved;
the saved evaluation's percentage is totalScore over maxTotalScore times
100 (0 when the maximum is not positive); afterwards the group is
completed exactly when the number of evaluations stored for it has
reached the panel's judge count, in which case its averageScore is
recomputed as the arithmetic mean of all stored percentages, and is
in_progress otherwise, in which case its averageScore is left at its
previous value (not recomputed). -/
theorem submit_evaluation_spec (db : DB) (code : String) (gid : Nat)
    (scores : List ScoreEntry) (recommend : Bool) (ratings : List ParticipantRating)
    (pTotal pMax : ℚ) (panel : Panel) (judge : Judge) (group : GroupDoc)
    (hpanel : findPanelByCode db code = some panel)
    (hjudge : panel.judges.find? (fun j => j.accessCode = code) = some judge)
    (hgroup : findGroup db gid = some group)
    (huniq : evalKeyUnique db.evaluations) :
    ∃ sv, (submitEvaluation db code gid scores recommend ratings pTotal pMax).2
        = .ok sv ∧
      evalKey sv = (gid, panel.panelId, judge.email) ∧
      sv.totalScore = (computeScores scores pTotal pMax).1 ∧
      sv.maxTotalScore = (computeScores scores pTotal pMax).2 ∧
      (0 < sv.maxTotalScore →
        sv.percentage = sv.totalScore / sv.maxTotalScore * 100) ∧
      (¬ 0 < sv.maxTotalScore → sv.percentage = 0) ∧
      evalKeyUnique
        (submitEvaluation db code gid scores recommend ratings pTotal pMax).1.evaluations ∧
      ((∃ ev0, db.evaluations.find? (fun ev => ev.groupId = gid ∧
          ev.panelId = panel.panelId ∧ ev.judgeEmail = judge.email) = some ev0) →
        (submitEvaluation db code gid scores recommend ratings pTotal pMax).1.evaluations.length
          = db.evaluations.length) ∧
      (db.evaluations.find? (fun ev => ev.groupId = gid ∧
          ev.panelId = panel.panelId ∧ ev.judgeEmail = judge.email) = none →
        (submitEvaluation db code gid scores recommend ratings pTotal pMax).1.evaluations
          = db.evaluations ++ [sv]) ∧
      (∃ g2 ∈ (submitEvaluation db code gid scores recommend ratings pTotal pMax).1.groups,
        g2.gid = group.gid ∧
        (panel.judges.length ≤
            (evalsFor (submitEvaluation db code gid scores recommend ratings pTotal pMax).1 gid).length →
          g2.evaluationStatus = "completed" ∧
          g2.averageScore =
            ((evalsFor (submitEvaluation db code gid scores recommend ratings pTotal pMax).1 gid).foldl
                (fun sum ev => sum + ev.percentage) 0)
              / ((evalsFor (submitEvaluation db code gid scores recommend ratings pTotal pMax).1 gid).length : ℚ)) ∧
        ((evalsFor (submitEvaluation db code gid scores recommend ratings pTotal pMax).1 gid).length
            < panel.judges.length →
          g2.evaluationStatus = "in_progress" ∧ g2.averageScore = group.averageScore)) := by
  have hgid : group.gid = gid := by simpa using List.find?_some hgroup
  have hgmem : group ∈ db.groups := List.mem_of_find?_eq_some hgroup
  cases hex : db.evaluations.find? (fun ev => ev.groupId = gid ∧
      ev.panelId = panel.panelId ∧ ev.judgeEmail = judge.email) with
  | none =>
    refine ⟨{ groupId := gid, panelId := panel.panelId, roundId := group.roundId,
                judgeEmail := judge.email, scores := scores,
                totalScore := (computeScores scores pTotal pMax).1,
                maxTotalScore := (computeScores scores pTotal pMax).2,
                percentage := if 0 < (computeScores scores pTotal pMax).2 then
                (computeScores scores pTotal pMax).1
                / (computeScores scores pTotal pMax).2 * 100 else 0,
                recommendForNextRound := recommend, participantRatings := ratings }, ?_, rfl, rfl, rfl, ?_, ?_, ?_, ?_, ?_, ?_⟩
    · simp only [submitEvaluation, hpanel, hjudge, hgroup, hex]
    · intro h
      show (if 0 < (computeScores scores pTotal pMax).2 then
          (computeScores scores pTotal pMax).1
            / (computeScores scores pTotal pMax).2 * 100 else 0)
        = (computeScores scores pTotal pMax).1
            / (computeScores scores pTotal pMax).2 * 100
      exact if_pos h
    · intro h
      show (if 0 < (computeScores scores pTotal pMax).2 then
          (computeScores scores pTotal pMax).1
            / (computeScores scores pTotal pMax).2 * 100 else 0) = 0
      exact if_neg h
    · simp only [submitEvaluation, hpanel, hjudge, hgroup, hex]
      rw [evalKeyUnique, List.pairwise_append]
      refine ⟨huniq, List.pairwise_singleton _ _, ?_⟩
      intro a ha b hb
      rw [List.mem_singleton.mp hb]
      have hna : ¬ (a.groupId = gid ∧ a.panelId = panel.panelId ∧
          a.judgeEmail = judge.email) := by
        have h2 := List.find?_eq_none.mp hex a ha
        simpa using h2
      intro hcontra
      apply hna
      have h3 : evalKey a = (gid, panel.panelId, judge.email) := hcontra
      rw [evalKey, Prod.mk.injEq, Prod.mk.injEq] at h3
      exact ⟨h3.1, h3.2.1, h3.2.2⟩
    · rintro ⟨ev0, hev0⟩
      simp at hev0
    · intro _
      simp only [submitEvaluation, hpanel, hjudge, hgroup, hex]
    · simp only [submitEvaluation, hpanel, hjudge, hgroup, hex, evalsFor]
      refine ⟨_, List.mem_map.mpr ⟨group, hgmem, rfl⟩, ?_⟩
      rw [if_pos hgid]
      by_cases hc : panel.judges.length ≤
          (((db.evaluations ++ [({ groupId := gid, panelId := panel.panelId, roundId := group.roundId,
                                    judgeEmail := judge.email, scores := scores,
                                    totalScore := (computeScores scores pTotal pMax).1,
                                    maxTotalScore := (computeScores scores pTotal pMax).2,
                                    percentage := if 0 < (computeScores scores pTotal pMax).2 then
                                    (computeScores scores pTotal pMax).1
                                    / (computeScores scores pTotal pMax).2 * 100 else 0,
                                    recommendForNextRound := recommend, participantRatings := ratings } : Evaluation)]).filter
            (fun ev => ev.groupId = gid)).length)
      · rw [if_pos hc]
        exact ⟨rfl, fun _ => ⟨rfl, rfl⟩, fun h => absurd hc (Nat.not_le.mpr h)⟩
      · rw [if_neg hc]
        exact ⟨rfl, fun h => absurd h hc, fun _ => ⟨rfl, rfl⟩⟩
  | some ev0 =>
    have hpred : ev0.groupId = gid ∧ ev0.panelId = panel.panelId ∧
        ev0.judgeEmail = judge.email := by
      simpa using List.find?_some hex
    refine ⟨{ ev0 with
                scores := scores,
                totalScore := (computeScores scores pTotal pMax).1,
                maxTotalScore := (computeScores scores pTotal pMax).2,
                recommendForNextRound := recommend,
                participantRatings := ratings,
                percentage := if 0 < (computeScores scores pTotal pMax).2 then
                (computeScores scores pTotal pMax).1
                / (computeScores scores pTotal pMax).2 * 100 else 0 }, ?_, ?_, rfl, rfl, ?_, ?_, ?_, ?_, ?_, ?_⟩
    · simp only [submitEvaluation, hpanel, hjudge, hgroup, hex]
    · show (ev0.groupId, ev0.panelId, ev0.judgeEmail) = (gid, panel.panelId, judge.email)
      rw [hpred.1, hpred.2.1, hpred.2.2]
    · intro h
      show (if 0 < (computeScores scores pTotal pMax).2 then
          (computeScores scores pTotal pMax).1
            / (computeScores scores pTotal pMax).2 * 100 else 0)
        = (computeScores scores pTotal pMax).1
            / (computeScores scores pTotal pMax).2 * 100
      exact if_pos h
    · intro h
      show (if 0 < (computeScores scores pTotal pMax).2 then
          (computeScores scores pTotal pMax).1
            / (computeScores scores pTotal pMax).2 * 100 else 0) = 0
      exact if_neg h
    · simp only [submitEvaluation, hpanel, hjudge, hgroup, hex]
      apply List.Pairwise.map
      · intro a b hab
        have hka : ∀ ev : Evaluation, evalKey (if ev.groupId = gid ∧
            ev.panelId = panel.panelId ∧ ev.judgeEmail = judge.email then
              ({ ev0 with
                   scores := scores,
                   totalScore := (computeScores scores pTotal pMax).1,
                   maxTotalScore := (computeScores scores pTotal pMax).2,
                   recommendForNextRound := recommend,
                   participantRatings := ratings,
                   percentage := if 0 < (computeScores scores pTotal pMax).2 then
                   (computeScores scores pTotal pMax).1
                   / (computeScores scores pTotal pMax).2 * 100 else 0 } : Evaluation)
            else ev) = evalKey ev := by
          intro ev
          by_cases hp : ev.groupId = gid ∧ ev.panelId = panel.panelId ∧
              ev.judgeEmail = judge.email
          · rw [if_pos hp]
            show (ev0.groupId, ev0.panelId, ev0.judgeEmail) = evalKey ev
            rw [evalKey, hpred.1, hpred.2.1, hpred.2.2, hp.1, hp.2.1, hp.2.2]
          · rw [if_neg hp]
        rw [hka a, hka b]
        exact hab
      · exact huniq
    · intro _
      simp only [submitEvaluation, hpanel, hjudge, hgroup, hex, List.length_map]
    · intro hnone
      simp at hnone
    · simp only [submitEvaluation, hpanel, hjudge, hgroup, hex, evalsFor]
      refine ⟨_, List.mem_map.mpr ⟨group, hgmem, rfl⟩, ?_⟩
      rw [if_pos hgid]
      by_cases hc : panel.judges.length ≤
          ((db.evaluations.map (fun ev =>
            if ev.groupId = gid ∧ ev.panelId = panel.panelId ∧
                ev.judgeEmail = judge.email then
              ({ ev0 with
                   scores := scores,
                   totalScore := (computeScores scores pTotal pMax).1,
                   maxTotalScore := (computeScores scores pTotal pMax).2,
                   recommendForNextRound := recommend,
                   participantRatings := ratings,
                   percentage := if 0 < (computeScores scores pTotal pMax).2 then
                   (computeScores scores pTotal pMax).1
                   / (computeScores scores pTotal pMax).2 * 100 else 0 } : Evaluation)
            else ev)).filter (fun ev => ev.groupId = gid)).length
      · rw [if_pos hc]
        exact ⟨rfl, fun _ => ⟨rfl, rfl⟩, fun h => absurd hc (Nat.not_le.mpr h)⟩
      · rw [if_neg hc]
        exact ⟨rfl, fun h => absurd h hc, fun _ => ⟨rfl, rfl⟩⟩

/-- Witness for submit_evaluation_spec, the end-to-end scenario of the
specification: a panel of two judges; after the first submission (80 of
100) the group is in_progress; after the second (60 of 100) the group is
completed with averageScore the mean 70 of the two percentages. -/
theorem submit_evaluation_spec_witness :
    let panel : Panel :=
      { panelId := 1,
        judges := [⟨"Judge One", "j1", "A1"⟩, ⟨"Judge Two", "j2", "B1"⟩] }
    let group : GroupDoc :=
      { gid := 1, subEventId := 1, roundId := 1, groupNumber := 1,
        participants := [10, 11], evaluationStatus := "pending",
        averageScore := 0 }
    let db0 : DB :=
      { participants := [], subEvents := [], rounds := [], groups := [group],
        panels := [panel], evaluations := [], counters := [] }
    let db1 := (submitEvaluation db0 "A1" 1 [] false [] 80 100).1
    let db2 := (submitEvaluation db1 "B1" 1 [] false [] 60 100).1
    (∃ g1 ∈ db1.groups, g1.gid = 1 ∧ g1.evaluationStatus = "in_progress") ∧
    (∃ g2 ∈ db2.groups, g2.gid = 1 ∧ g2.evaluationStatus = "completed" ∧
        g2.averageScore = 70) := by
  intro panel group db0 db1 db2
  obtain ⟨sv1, hresp1, hkey1, htot1, hmax1, hpos1, hneg1, hu1, hup1, happ1, g1,
      hg1mem, hg1gid, hg1c, hg1p⟩ :=
    submit_evaluation_spec db0 "A1" 1 [] false [] 80 100 panel
      ⟨"Judge One", "j1", "A1"⟩ group rfl rfl rfl List.Pairwise.nil
  have hmax1v : sv1.maxTotalScore = 100 := by
    rw [hmax1]
    norm_num [computeScores]
  have htot1v : sv1.totalScore = 80 := by
    rw [htot1]
    norm_num [computeScores]
  have hperc1 : sv1.percentage = 80 := by
    rw [hpos1 (by rw [hmax1v]; norm_num), htot1v, hmax1v]
    norm_num
  have hgid1 : sv1.groupId = 1 := by
    have h := congrArg (fun t => t.1) hkey1
    simpa [evalKey] using h
  have hje1 : sv1.judgeEmail = "j1" := by
    have h := congrArg (fun t => t.2.2) hkey1
    simpa [evalKey] using h
  have hevals1 : db1.evaluations = [sv1] := happ1 rfl
  have hef1 : evalsFor db1 1 = [sv1] := by
    rw [evalsFor, hevals1]
    simp [hgid1]
  obtain ⟨sv2, hresp2, hkey2, htot2, hmax2, hpos2, hneg2, hu2, hup2, happ2, g2,
      hg2mem, hg2gid, hg2c, hg2p⟩ :=
    submit_evaluation_spec db1 "B1" 1 [] false [] 60 100 panel
      ⟨"Judge Two", "j2", "B1"⟩ { group with evaluationStatus := "in_progress" }
      rfl rfl rfl (by rw [show db1.evaluations = [sv1] from hevals1]; exact List.pairwise_singleton _ _)
  have hmax2v : sv2.maxTotalScore = 100 := by
    rw [hmax2]
    norm_num [computeScores]
  have htot2v : sv2.totalScore = 60 := by
    rw [htot2]
    norm_num [computeScores]
  have hperc2 : sv2.percentage = 60 := by
    rw [hpos2 (by rw [hmax2v]; norm_num), htot2v, hmax2v]
    norm_num
  have hgid2 : sv2.groupId = 1 := by
    have h := congrArg (fun t => t.1) hkey2
    simpa [evalKey] using h
  have hevals2 : db2.evaluations = [sv1] ++ [sv2] := by
    rw [← hevals1]
    apply happ2
    rw [hevals1]
    refine List.find?_eq_none.mpr ?_
    intro x hx
    rw [List.mem_singleton.mp hx]
    simp [hje1]
  have hef2 : evalsFor db2 1 = [sv1, sv2] := by
    rw [evalsFor, hevals2]
    simp [hgid1, hgid2]
  constructor
  · refine ⟨g1, hg1mem, by rw [hg1gid], ?_⟩
    refine (hg1p ?_).1
    rw [hef1]
    simp
  · refine ⟨g2, hg2mem, by rw [hg2gid], ?_, ?_⟩
    · refine (hg2c ?_).1
      rw [hef2]
      simp
    · have havg := (hg2c (by rw [hef2]; simp)).2
      rw [hef2] at havg
      rw [havg, List.foldl_cons, List.foldl_cons, List.foldl_nil, hperc1, hperc2]
      norm_num
